import Mathlib

/-!
Verification of the go-ipfs block removal pipeline and related command
validation logic.

The development shallowly embeds:

* `filestore.RmBlocks`, `filestore.FilterPinned` and
  `filestore.AvailableElsewhere` (src/core/commands/active.go, second unit,
  package filestore): removal of blocks across the two physical backends
  (the filestore manager `fm` and the plain block store `bs`), with
  pin-safety filtering and per-CID outcome reporting.
* the nocopy/raw-leaves validation prefix of `AddCmd.Run`
  (src/unnamed/part_001, first unit).
* the CID-argument decode loop of `blockRmCmd.Run`
  (src/unnamed/part_001, second unit).

External collaborators that are repository code not included under src/
(the pin set `pin.Pinner.CheckIfPinned`, the store backends, `cid.Decode`,
`util.RmBlocks`) are modelled abstractly, as functions supplied to the
embedded code, following the contracts stated in the spec (sections 4.4
and 6).

Go channels become lists of emitted values in emission order; the Go
goroutine structure is sequentialized (all sends into the outcome channel
happen while the GC lock is held, between `lock.GCLock()` and
`unlocker.Unlock()`, so the emitted list is exactly the set of sends
performed under the lock).
-/

/-- A CID, identified with its base-encoded string form (`c.String()` in Go
is then the identity, and is injective, as the real base encoding is). -/
abbrev Cid := String

/-- Go `c.String()`. -/
def cidStr (c : Cid) : String := c

/-- Go `util.RemovedBlock` (blocks/blockstore/util): one per-CID outcome of
the removal stream. Empty `error` means successful removal; empty `hash`
with nonempty `error` is the batch pin-check failure outcome. -/
structure RemovedBlock where
  hash : String
  error : String
  deriving DecidableEq, Repr

/-- A Go `error` returned by `DeleteBlock`. `isNotFound` models
`err == bs.ErrNotFound || err == ds.ErrNotFound`; `msg` models
`err.Error()`. -/
structure DelErr where
  isNotFound : Bool
  msg : String
  deriving DecidableEq, Repr

/-- Modelled from the spec: the Block Store interface of section 6
(`Has(cid) bool`, `Delete(cid) err`, with err distinguishing not-found
from other failures), over an abstract store state `σ`. Both concrete
backends (plain store and filestore manager) implement it. -/
structure StoreOps (σ : Type) where
  has : σ → Cid → Bool
  deleteBlock : σ → Cid → σ × Option DelErr

/-- The `Filestore` object of package filestore: it owns the filestore
manager `fm` and the plain block store `bs` (fields `fs.fm` and `fs.bs`
in the Go source), here as abstract states with their operations. -/
structure Filestore (σ : Type) where
  fmOps : StoreOps σ
  bsOps : StoreOps σ
  fm : σ
  bs : σ

/-- Which of the two backends a `Deleter` value denotes, for the pipeline
positions where the source only ever passes `fs.fm` or `fs.bs`. -/
inductive Backend where
  | fm
  | bs
  deriving DecidableEq, Repr

/-- A Go `Deleter` interface value as compared by pointer identity in
`AvailableElsewhere`: the filestore manager, the plain block store, or
some other deleter that is neither (`invalid p` stands for any pointer
different from both `fs.fm` and `fs.bs`). -/
inductive DeleterRef where
  | fm
  | bs
  | invalid (ptr : Nat)
  deriving DecidableEq, Repr

/-- The `DeleterRef` corresponding to a real backend. -/
def Backend.ref : Backend → DeleterRef
  | .fm => .fm
  | .bs => .bs

/-- `filestore.AvailableElsewhere(fs, foundIn, c)`: queries the sibling
backend of `foundIn` for `c`. The Go default branch is
`panic("invalid pointer for foundIn")`; the panic is modelled as `none`
(no boolean is ever returned), while the two legitimate branches return
`some` of the sibling `Has`. The second return of Go `Has` (its error)
is discarded by the source (`have, _ := ...`), so `has` is a plain Bool. -/
def AvailableElsewhere (fs : Filestore σ) (foundIn : DeleterRef) (c : Cid) : Option Bool :=
  match foundIn with
  | .fm => some (fs.bsOps.has fs.bs c)
  | .bs => some (fs.fmOps.has fs.fm c)
  | .invalid _ => none

/-- `AvailableElsewhere` restricted to the two real backends, as used from
`FilterPinned` (whose `foundIn` argument is always `fs.fm` or `fs.bs`,
being the `blocks` deleter selected by the `RmBlocks` prefix switch). -/
def availableElsewhereB (fs : Filestore σ) (b : Backend) (c : Cid) : Bool :=
  match b with
  | .fm => fs.bsOps.has fs.bs c
  | .bs => fs.fmOps.has fs.fm c

/-- On real backends the restricted check agrees with `AvailableElsewhere`
(and in particular never hits the panic branch). -/
theorem availableElsewhereB_spec (fs : Filestore σ) (b : Backend) (c : Cid) :
    AvailableElsewhere fs b.ref c = some (availableElsewhereB fs b c) := by
  cases b <;> rfl

/-- One entry of the `pin.CheckIfPinned` result: the repository source uses
only `r.Key`, `r.Pinned()` and `r.String()` of `pin.Pinned`, modelled as
the three fields below (`reason` is the human-readable pin reason that
`r.String()` renders). -/
structure PinResult where
  key : Cid
  pinned : Bool
  reason : String
  deriving DecidableEq, Repr

/-- Modelled from the spec: `pin.Pinner.CheckIfPinned` (section 4.4), a
batch membership check that either fails as a whole or returns one result
per input CID. The pin package is repository code not included under
src/, so it is kept abstract. -/
abbrev Pinner := List Cid → Except String (List PinResult)

/-- Go `util.RmBlocksOpts`. `prefixOpt` models the `Prefix` field (the
datastore key prefix naming the backend to delete from). -/
structure RmBlocksOpts where
  prefixOpt : String
  quiet : Bool
  force : Bool
  deriving DecidableEq, Repr

/-- `filestore.FilestorePrefix.String()`; the exact string is owned by the
external filestore datastore key and only its distinctness from the block
prefix matters here. -/
def FilestorePrefixStr : String := "/filestore"

/-- `blockstore.BlockPrefix.String()`. -/
def BlockPrefixStr : String := "/blocks"

/-- The `switch opts.Prefix` of `RmBlocks`: selects the deleter
(`fs.fm` for the filestore prefix, `fs.bs` for the block prefix), or
no deleter for an unknown prefix. -/
def selectBackend (p : String) : Option Backend :=
  if p = FilestorePrefixStr then some Backend.fm
  else if p = BlockPrefixStr then some Backend.bs
  else none

/-- `blocks.DeleteBlock(c)` where `blocks` is the backend selected by the
prefix switch: steps the state of that backend only, returning the Go
error value. -/
def Filestore.deleteIn (fs : Filestore σ) (b : Backend) (c : Cid) :
    Filestore σ × Option DelErr :=
  match b with
  | .fm =>
    let r := fs.fmOps.deleteBlock fs.fm c
    (⟨fs.fmOps, fs.bsOps, r.1, fs.bs⟩, r.2)
  | .bs =>
    let r := fs.bsOps.deleteBlock fs.bs c
    (⟨fs.fmOps, fs.bsOps, fs.fm, r.1⟩, r.2)

/-- `fs.has` on the selected backend. -/
def Filestore.hasIn (fs : Filestore σ) (b : Backend) (c : Cid) : Bool :=
  match b with
  | .fm => fs.fmOps.has fs.fm c
  | .bs => fs.bsOps.has fs.bs c

/-- The per-CID emission of one iteration of the `RmBlocks` delete loop,
given the error returned by `DeleteBlock`:

* a not-found error is silently skipped when `Force` is set;
* any other failure (or a not-found failure without `Force`) emits a
  per-CID error outcome;
* success emits a success outcome unless `Quiet` is set. -/
def rmStepOut (opts : RmBlocksOpts) (c : Cid) (err : Option DelErr) : List RemovedBlock :=
  match err with
  | some e =>
    if opts.force && e.isNotFound then []
    else [⟨cidStr c, e.msg⟩]
  | none =>
    if !opts.quiet then [⟨cidStr c, ""⟩] else []

/-- The `for _, c := range stillOkay` delete loop of `RmBlocks`: deletes
each CID from the selected backend in order, collecting the emitted
outcomes in emission order. -/
def deleteLoop (opts : RmBlocksOpts) (b : Backend) :
    Filestore σ → List Cid → Filestore σ × List RemovedBlock
  | fs, [] => (fs, [])
  | fs, c :: cs =>
    let r := fs.deleteIn b c
    let rest := deleteLoop opts b r.1 cs
    (rest.1, rmStepOut opts c r.2 ++ rest.2)

/-- The `for _, r := range res` loop of `filestore.FilterPinned`: an entry
that is not pinned, or pinned but available through the sibling backend,
goes into `stillOkay`; otherwise a per-CID error outcome carrying the pin
reason is emitted. Returns (emitted outcomes, stillOkay), each in input
order. -/
def filterPinnedLoop (fs : Filestore σ) (foundIn : Backend) :
    List PinResult → List RemovedBlock × List Cid
  | [] => ([], [])
  | r :: rs =>
    let rest := filterPinnedLoop fs foundIn rs
    if !r.pinned || availableElsewhereB fs foundIn r.key then
      (rest.1, r.key :: rest.2)
    else
      (⟨cidStr r.key, r.reason⟩ :: rest.1, rest.2)

/-- `filestore.FilterPinned(fs, pins, out, cids, foundIn)`: batch
pin check, then the filtering loop. A pin-check failure emits a single
outcome with empty hash and the pin-check failure message, and returns an
empty `stillOkay`. Returns (outcomes sent to `out`, `stillOkay`). -/
def FilterPinned (fs : Filestore σ) (pins : Pinner) (cids : List Cid)
    (foundIn : Backend) : List RemovedBlock × List Cid :=
  match pins cids with
  | .error err => ([⟨"", "pin check failed: " ++ err⟩], [])
  | .ok res => filterPinnedLoop fs foundIn res

/-- The observable result of a successful `filestore.RmBlocks` call:
the capacity of the outcome channel (`make(chan interface{}, len(cids))`),
the outcomes emitted on it (all emitted while the GC lock is held: the
unlock defer runs before the close defer), and the final backend states. -/
structure RmResult (σ : Type) where
  capacity : Nat
  outs : List RemovedBlock
  fs : Filestore σ

/-- `filestore.RmBlocks(fs, lock, pins, cids, opts)`: allocates the outcome
channel with capacity `len(cids)`, resolves the backend from
`opts.Prefix` (an unknown prefix returns an error before the GC lock is
taken and before any goroutine work starts), then under the GC lock runs
`FilterPinned` followed by the delete loop over `stillOkay`. -/
def RmBlocks (fs : Filestore σ) (pins : Pinner) (cids : List Cid)
    (opts : RmBlocksOpts) : Except String (RmResult σ) :=
  match selectBackend opts.prefixOpt with
  | none => .error ("Unknown prefix: " ++ opts.prefixOpt ++ "\n")
  | some blocks =>
    let pre := FilterPinned fs pins cids blocks
    let del := deleteLoop opts blocks fs pre.2
    .ok ⟨cids.length, pre.1 ++ del.2, del.1⟩

/-- A boolean option as read by `req.Option(name).Bool()`: the value and
whether the option was explicitly set on the request (`found`). -/
structure OptBool where
  value : Bool
  found : Bool
  deriving DecidableEq, Repr

/-- The part of an Add request that the nocopy/raw-leaves validation of
`AddCmd.Run` reads: the `nocopy` option value, the `raw-leaves` option
(value and found flag `rbset`), and `cfg.Experimental.FilestoreEnabled`. -/
structure AddRequest where
  nocopy : Bool
  rawLeaves : OptBool
  filestoreEnabled : Bool
  deriving DecidableEq, Repr

/-- Result of the validation prefix of `AddCmd.Run`: either one of its two
`SetError`-and-return paths (each taken before any adder is constructed,
so no ingestion happens), or proceeding into ingestion with the effective
raw-leaves flag. -/
inductive AddCheck where
  | errFilestoreNotEnabled
  | errNoCopyNeedsRawLeaves
  | proceed (rawblks : Bool)
  deriving DecidableEq, Repr

/-- The nocopy/raw-leaves validation of `AddCmd.Run`: reject nocopy when
the filestore experiment is off; otherwise, if nocopy is set and
raw-leaves was not explicitly set, force raw-leaves on; then reject
nocopy without (effective) raw-leaves. -/
def addNoCopyCheck (req : AddRequest) : AddCheck :=
  if req.nocopy && !req.filestoreEnabled then
    .errFilestoreNotEnabled
  else
    let rawblks := if req.nocopy && !req.rawLeaves.found then true else req.rawLeaves.value
    if req.nocopy && !rawblks then
      .errNoCopyNeedsRawLeaves
    else
      .proceed rawblks

/-- The CID decode loop of `blockRmCmd.Run`: decode each argument in order,
aborting with an input error (formatted as in the source) at the first
argument that fails to decode. `decode` models the external `cid.Decode`,
which returns an error value and never panics. -/
def decodeCids (decode : String → Except String Cid) :
    List String → Except String (List Cid)
  | [] => .ok []
  | h :: t =>
    match decode h with
    | .error e => .error ("invalid content id: " ++ h ++ " (" ++ e ++ ")")
    | .ok c =>
      match decodeCids decode t with
      | .error e => .error e
      | .ok cs => .ok (c :: cs)

/-- Observable result of `blockRmCmd.Run`: an input error set before
`util.RmBlocks` is invoked, an error returned by `util.RmBlocks` itself,
or the emitted outcome stream. -/
inductive BlockRmResult where
  | inputError (msg : String)
  | rmError (msg : String)
  | emitted (outs : List RemovedBlock)
  deriving DecidableEq, Repr

/-- Whether the run aborted with an input error before removal started. -/
def BlockRmResult.isInputError : BlockRmResult → Bool
  | .inputError _ => true
  | _ => false

/-- `blockRmCmd.Run`: decode all arguments, then invoke the removal
pipeline on the decoded CIDs. `rm` abstracts `util.RmBlocks` (repository
code not under src/): it receives the decoded CIDs, the force and quiet
options and the store state, and returns the final state and the emitted
outcomes, or an error. The returned state component witnesses whether any
block was touched: on either error path the input state is returned
unchanged, because the source `return`s before (or instead of) consuming
the removal channel. -/
def blockRmRun (decode : String → Except String Cid)
    (rm : List Cid → Bool → Bool → σ → Except String (σ × List RemovedBlock))
    (st : σ) (hashes : List String) (force quiet : Bool) :
    σ × BlockRmResult :=
  match decodeCids decode hashes with
  | .error msg => (st, .inputError msg)
  | .ok cids =>
    match rm cids force quiet st with
    | .error e => (st, .rmError e)
    | .ok r => (r.1, .emitted r.2)

/-- A concrete Block Store instance over a list of stored CIDs: `Has` is
membership, `DeleteBlock` removes a present CID and reports a not-found
error for an absent one (the plain blockstore behaviour). Used to
instantiate the abstract pipeline in witnesses. -/
def listStoreOps : StoreOps (List Cid) :=
  ⟨fun s c => s.contains c,
   fun s c =>
     if s.contains c then (s.erase c, none)
     else (s, some ⟨true, "blockstore: block not found"⟩)⟩

/-- A concrete two-backend filestore from the contents of the two stores. -/
def fsOf (fmContents bsContents : List Cid) : Filestore (List Cid) :=
  ⟨listStoreOps, listStoreOps, fmContents, bsContents⟩

/-- A concrete pinner built from a pin predicate and a reason function,
satisfying the spec contract of `CheckIfPinned` (one result per input
CID, in order). -/
def pinnerOf (pinned : Cid → Bool) (reason : Cid → String) : Pinner :=
  fun cids => .ok (cids.map fun c => ⟨c, pinned c, reason c⟩)

/-- A pinner whose batch check fails as a whole. -/
def pinnerFail (msg : String) : Pinner := fun _ => .error msg

/-- The ops of the backend selected by the prefix switch. -/
def Filestore.opsIn (fs : Filestore σ) : Backend → StoreOps σ
  | .fm => fs.fmOps
  | .bs => fs.bsOps

/-- The state of the backend selected by the prefix switch. -/
def Filestore.stateIn (fs : Filestore σ) : Backend → σ
  | .fm => fs.fm
  | .bs => fs.bs

theorem deleteIn_snd (fs : Filestore σ) (b : Backend) (c : Cid) :
    (fs.deleteIn b c).2 = ((fs.opsIn b).deleteBlock (fs.stateIn b) c).2 := by
  cases b <;> rfl

theorem deleteIn_opsIn (fs : Filestore σ) (b b' : Backend) (c : Cid) :
    ((fs.deleteIn b c).1).opsIn b' = fs.opsIn b' := by
  cases b <;> cases b' <;> rfl

theorem string_append_ne_empty (s t : String) (h : s.length ≠ 0) : s ++ t ≠ "" := by
  intro he
  have hl := congrArg String.length he
  rw [String.length_append] at hl
  simp only [String.length_empty] at hl
  omega

theorem decodeCids_isError_of_mem (decode : String → Except String Cid)
    (hashes : List String) (h : String) (e : String)
    (hmem : h ∈ hashes) (hdec : decode h = .error e) :
    ∃ msg, decodeCids decode hashes = .error msg := by
  induction hashes with
  | nil => cases hmem
  | cons a t ih =>
    rcases List.mem_cons.mp hmem with rfl | hmem'
    · exact ⟨_, by unfold decodeCids; rw [hdec]⟩
    · cases hda : decode a with
      | error e' => exact ⟨_, by unfold decodeCids; rw [hda]⟩
      | ok c =>
        obtain ⟨msg, hmsg⟩ := ih hmem'
        exact ⟨msg, by unfold decodeCids; rw [hda, hmsg]⟩

theorem filterPinnedLoop_not_mem_stillOkay {σ} (fs : Filestore σ) (b : Backend)
    (pinned : Cid → Bool) (reason : Cid → String) (res : List PinResult)
    (hcons : ∀ r ∈ res, r.pinned = pinned r.key ∧ r.reason = reason r.key)
    (c : Cid) (hpin : pinned c = true) (hav : availableElsewhereB fs b c = false) :
    c ∉ (filterPinnedLoop fs b res).2 := by
  induction res with
  | nil => simp [filterPinnedLoop]
  | cons r rs ih =>
    have hr := hcons r (List.mem_cons_self r rs)
    have ih' := ih (fun x hx => hcons x (List.mem_cons_of_mem _ hx))
    cases hcond : (!r.pinned || availableElsewhereB fs b r.key) with
    | false => simpa [filterPinnedLoop, hcond] using ih'
    | true =>
      simp only [filterPinnedLoop, hcond, if_true]
      intro hmem
      rcases List.mem_cons.mp hmem with rfl | hmem'
      · rw [hr.1, hpin, hav] at hcond
        simp at hcond
      · exact ih' hmem'

theorem filterPinnedLoop_mem_outs {σ} (fs : Filestore σ) (b : Backend)
    (pinned : Cid → Bool) (reason : Cid → String) (res : List PinResult)
    (hcons : ∀ r ∈ res, r.pinned = pinned r.key ∧ r.reason = reason r.key)
    (c : Cid) (hpin : pinned c = true) (hav : availableElsewhereB fs b c = false)
    (hmem : c ∈ res.map PinResult.key) :
    (⟨cidStr c, reason c⟩ : RemovedBlock) ∈ (filterPinnedLoop fs b res).1 := by
  induction res with
  | nil => simp at hmem
  | cons r rs ih =>
    have hr := hcons r (List.mem_cons_self r rs)
    have ih' := ih (fun x hx => hcons x (List.mem_cons_of_mem _ hx))
    rw [List.map_cons, List.mem_cons] at hmem
    cases hcond : (!r.pinned || availableElsewhereB fs b r.key) with
    | true =>
      simp only [filterPinnedLoop, hcond, if_true]
      rcases hmem with rfl | hm
      · rw [hr.1, hpin, hav] at hcond
        simp at hcond
      · exact ih' hm
    | false =>
      simp only [filterPinnedLoop, hcond, Bool.false_eq_true, if_false]
      rcases hmem with rfl | hm
      · rw [← hr.2]
        exact List.mem_cons_self _ _
      · exact List.mem_cons_of_mem _ (ih' hm)

theorem filterPinnedLoop_outs_error_ne {σ} (fs : Filestore σ) (b : Backend)
    (res : List PinResult)
    (hres : ∀ r ∈ res, r.pinned = true → r.reason ≠ "") :
    ∀ o ∈ (filterPinnedLoop fs b res).1, o.error ≠ "" := by
  induction res with
  | nil => simp [filterPinnedLoop]
  | cons r rs ih =>
    have ih' := ih (fun x hx => hres x (List.mem_cons_of_mem _ hx))
    intro o ho
    cases hcond : (!r.pinned || availableElsewhereB fs b r.key) with
    | true =>
      rw [filterPinnedLoop] at ho
      simp only [hcond, if_true] at ho
      exact ih' o ho
    | false =>
      rw [filterPinnedLoop] at ho
      simp only [hcond, Bool.false_eq_true, if_false] at ho
      rcases List.mem_cons.mp ho with rfl | ho'
      · have hp : r.pinned = true := by
          rcases Bool.or_eq_false_iff.mp hcond with ⟨h1, _⟩
          simpa using h1
        exact hres r (List.mem_cons_self r rs) hp
      · exact ih' o ho'

theorem deleteLoop_quiet_filter {σ} (b : Backend) (p : String) (f : Bool)
    (ops : StoreOps σ)
    (herr : ∀ (st : σ) (c : Cid) (e : DelErr),
      (ops.deleteBlock st c).2 = some e → e.msg ≠ "") :
    ∀ (fs : Filestore σ), fs.opsIn b = ops → ∀ (cs : List Cid),
    (deleteLoop ⟨p, true, f⟩ b fs cs).1 = (deleteLoop ⟨p, false, f⟩ b fs cs).1 ∧
    (deleteLoop ⟨p, true, f⟩ b fs cs).2 =
      (deleteLoop ⟨p, false, f⟩ b fs cs).2.filter (fun o => o.error ≠ "") := by
  intro fs hops cs
  induction cs generalizing fs with
  | nil => exact ⟨rfl, rfl⟩
  | cons c cs ih =>
    obtain ⟨ih1, ih2⟩ := ih ((fs.deleteIn b c).1)
      (by rw [deleteIn_opsIn, hops])
    refine ⟨ih1, ?_⟩
    show rmStepOut ⟨p, true, f⟩ c (fs.deleteIn b c).2 ++ _ =
      List.filter _ (rmStepOut ⟨p, false, f⟩ c (fs.deleteIn b c).2 ++ _)
    rw [List.filter_append, ← ih2]
    congr 1
    cases hdel : (fs.deleteIn b c).2 with
    | none => simp [rmStepOut]
    | some e =>
      have hm : e.msg ≠ "" := by
        apply herr (fs.stateIn b) c e
        rw [← hops, ← deleteIn_snd, hdel]
      cases hnf : (f && e.isNotFound) with
      | true => simp [rmStepOut, hnf]
      | false => simp [rmStepOut, hnf, hm]

theorem deleteLoop_hash_map {σ} (b : Backend) (p : String) :
    ∀ (fs : Filestore σ) (cs : List Cid),
    (deleteLoop ⟨p, false, false⟩ b fs cs).2.map RemovedBlock.hash = cs := by
  intro fs cs
  induction cs generalizing fs with
  | nil => rfl
  | cons c cs ih =>
    show (rmStepOut ⟨p, false, false⟩ c (fs.deleteIn b c).2 ++ _).map _ = _
    rw [List.map_append, ih]
    cases (fs.deleteIn b c).2 with
    | none => rfl
    | some e => simp [rmStepOut, cidStr]

theorem filterPinnedLoop_hash_perm {σ} (fs : Filestore σ) (b : Backend)
    (res : List PinResult) :
    ((filterPinnedLoop fs b res).1.map RemovedBlock.hash ++
      (filterPinnedLoop fs b res).2).Perm (res.map PinResult.key) := by
  induction res with
  | nil => simp [filterPinnedLoop]
  | cons r rs ih =>
    cases hcond : (!r.pinned || availableElsewhereB fs b r.key) with
    | true =>
      simp only [filterPinnedLoop, hcond, if_true, List.map_cons]
      exact List.perm_middle.trans (ih.cons r.key)
    | false =>
      simp only [filterPinnedLoop, hcond, Bool.false_eq_true, if_false,
        List.map_cons, List.cons_append, cidStr]
      exact ih.cons r.key

theorem listStoreOps_err_msg :
    ∀ (st : List Cid) (c : Cid) (e : DelErr),
      (listStoreOps.deleteBlock st c).2 = some e → e.msg ≠ "" := by
  intro st c e h
  unfold listStoreOps at h
  dsimp only at h
  split at h
  · simp at h
  · simp only [Option.some.injEq] at h
    rw [← h]
    decide

/-- Claim C2: for every CID and both real backends, `AvailableElsewhere`
returns exactly the sibling backend Has answer (filestore manager queries
the plain store and vice versa), hence returns true iff the sibling Has is
true; and for a `foundIn` that is neither backend it does not return at
all (the Go source panics, modelled as `none`), rather than returning an
error value. -/
theorem C2_available_elsewhere_iff_sibling_has {σ} (fs : Filestore σ) (c : Cid) :
    AvailableElsewhere fs DeleterRef.fm c = some (fs.bsOps.has fs.bs c) ∧
    AvailableElsewhere fs DeleterRef.bs c = some (fs.fmOps.has fs.fm c) ∧
    (AvailableElsewhere fs DeleterRef.fm c = some true ↔ fs.bsOps.has fs.bs c = true) ∧
    (AvailableElsewhere fs DeleterRef.bs c = some true ↔ fs.fmOps.has fs.fm c = true) ∧
    ∀ p : Nat, AvailableElsewhere fs (DeleterRef.invalid p) c = none := by
  refine ⟨rfl, rfl, ?_, ?_, fun _ => rfl⟩ <;> simp [AvailableElsewhere]

/-- Claim C3: in the `RmBlocks` delete loop, a CID whose `DeleteBlock`
fails yields no outcome when the failure is not-found and `force` is set,
and a per-CID error outcome (with the error message) otherwise — in
particular a failure other than not-found is reported regardless of
`force`. The rest of the loop proceeds on the post-delete state. -/
theorem C3_delete_failure_force_semantics {σ} (fs : Filestore σ) (opts : RmBlocksOpts)
    (b : Backend) (c : Cid) (cs : List Cid) (e : DelErr)
    (hdel : (fs.deleteIn b c).2 = some e) :
    (deleteLoop opts b fs (c :: cs)).2 =
      (if opts.force = true ∧ e.isNotFound = true then []
       else [⟨cidStr c, e.msg⟩]) ++ (deleteLoop opts b (fs.deleteIn b c).1 cs).2 := by
  show rmStepOut opts c (fs.deleteIn b c).2 ++ _ = _
  rw [hdel]
  by_cases hf : opts.force = true <;> by_cases hn : e.isNotFound = true <;>
    simp [rmStepOut, hf, hn]

/-- Witness for C3 at a concrete input: with `force` set, deleting a CID
absent from the (empty) filestore manager is suppressed with no outcome. -/
theorem C3_witness :
    (deleteLoop ⟨FilestorePrefixStr, false, true⟩ Backend.fm (fsOf [] []) ["x"]).2 =
      (if (⟨FilestorePrefixStr, false, true⟩ : RmBlocksOpts).force = true ∧
          (⟨true, "blockstore: block not found"⟩ : DelErr).isNotFound = true then []
       else [⟨cidStr "x", (⟨true, "blockstore: block not found"⟩ : DelErr).msg⟩]) ++
      (deleteLoop ⟨FilestorePrefixStr, false, true⟩ Backend.fm
        ((fsOf [] []).deleteIn Backend.fm "x").1 []).2 :=
  C3_delete_failure_force_semantics (fsOf [] []) ⟨FilestorePrefixStr, false, true⟩
    Backend.fm "x" [] ⟨true, "blockstore: block not found"⟩ rfl

/-- Claim C5 counterexample: an Add request with `nocopy` set, the
filestore experiment enabled, and `raw-leaves` simply not given on the
request (hence not enabled by the user) is NOT rejected: the run forces
raw-leaves on and proceeds into ingestion, contradicting the claim that
every such request fails with the invalid-configuration error. -/
theorem C5_counterexample :
    addNoCopyCheck ⟨true, ⟨false, false⟩, true⟩ = AddCheck.proceed true ∧
    addNoCopyCheck ⟨true, ⟨false, false⟩, true⟩ ≠ AddCheck.errNoCopyNeedsRawLeaves := by
  decide

/-- Claim C5 as amended: an Add request with `nocopy` set (and the
filestore experiment enabled) fails with the nocopy-requires-raw-leaves
error, before any ingestion work, exactly when `raw-leaves` was
explicitly set to false; when the option is absent it is auto-enabled and
the add proceeds (see the counterexample). -/
theorem C5_nocopy_explicit_raw_leaves_false_rejected (req : AddRequest)
    (hn : req.nocopy = true) (hf : req.filestoreEnabled = true)
    (hfound : req.rawLeaves.found = true) (hval : req.rawLeaves.value = false) :
    addNoCopyCheck req = AddCheck.errNoCopyNeedsRawLeaves := by
  unfold addNoCopyCheck
  simp [hn, hf, hfound, hval]

/-- Witness for the amended C5 at a concrete request. -/
theorem C5_witness :
    addNoCopyCheck ⟨true, ⟨false, true⟩, true⟩ = AddCheck.errNoCopyNeedsRawLeaves :=
  C5_nocopy_explicit_raw_leaves_false_rejected ⟨true, ⟨false, true⟩, true⟩ rfl rfl rfl rfl

/-- Claim C6: a `RmBlocks` call whose options carry a backend prefix that
is neither the filestore prefix nor the block store prefix returns the
unknown-prefix configuration error. In the source this `return` happens
before the goroutine that takes the GC lock is launched, so no outcome
channel work starts and no delete is attempted; in the model this is
reflected by the result being a bare error, produced without evaluating
`FilterPinned` or the delete loop (the final states and outcome list of
`RmResult` are never constructed). -/
theorem C6_unknown_backend_rejected {σ} (fs : Filestore σ) (pins : Pinner)
    (cids : List Cid) (opts : RmBlocksOpts)
    (h1 : opts.prefixOpt ≠ FilestorePrefixStr) (h2 : opts.prefixOpt ≠ BlockPrefixStr) :
    RmBlocks fs pins cids opts =
      Except.error ("Unknown prefix: " ++ opts.prefixOpt ++ "\n") := by
  unfold RmBlocks selectBackend
  simp [h1, h2]

/-- Witness for C6 at a concrete unknown prefix. -/
theorem C6_witness :
    RmBlocks (fsOf [] []) (pinnerFail "x") (["a"] : List Cid) ⟨"/bogus", false, false⟩ =
      Except.error ("Unknown prefix: " ++ "/bogus" ++ "\n") :=
  C6_unknown_backend_rejected (fsOf [] []) (pinnerFail "x") ["a"]
    ⟨"/bogus", false, false⟩ (by decide) (by decide)

/-- Claim C10: when the batch pin check fails, `RmBlocks` (with a valid
backend prefix) emits exactly one outcome, with empty hash and the
pin-check failure message, and then closes the stream; `stillOkay` is
empty so `DeleteBlock` is never called and both backend states are
returned unchanged. -/
theorem C10_pin_check_failure_single_outcome {σ} (fs : Filestore σ) (pins : Pinner)
    (cids : List Cid) (opts : RmBlocksOpts) (b : Backend) (e : String)
    (hsel : selectBackend opts.prefixOpt = some b)
    (hpins : pins cids = Except.error e) :
    RmBlocks fs pins cids opts =
      Except.ok ⟨cids.length, [⟨"", "pin check failed: " ++ e⟩], fs⟩ := by
  unfold RmBlocks
  rw [hsel]
  unfold FilterPinned
  rw [hpins]
  rfl

/-- Witness for C10 at a concrete input: the stores are untouched and the
lone outcome names the pin-check failure. -/
theorem C10_witness :
    RmBlocks (fsOf ["a"] []) (pinnerFail "boom") (["a"] : List Cid)
        ⟨FilestorePrefixStr, false, false⟩ =
      Except.ok ⟨1, [⟨"", "pin check failed: " ++ "boom"⟩], fsOf ["a"] []⟩ :=
  C10_pin_check_failure_single_outcome (fsOf ["a"] []) (pinnerFail "boom") ["a"]
    ⟨FilestorePrefixStr, false, false⟩ Backend.fm "boom" rfl rfl

/-- A pinner that pins every CID, for concrete witnesses. -/
def pinsAll : Pinner := pinnerOf (fun _ => true) (fun _ => "pinned recursively")

/-- Claim C1: for every requested CID list and every pin state (given as a
predicate `pinned` and reason function `reason` that the batch pin-check
results agree with), a CID that is pinned and has no copy in the sibling
backend is excluded from `stillOkay` — the exact list the `RmBlocks`
delete loop iterates over, as the last conjunct shows — and, if it was
requested, an error outcome carrying its pin reason is emitted instead. -/
theorem C1_pinned_unavailable_never_deleted {σ} (fs : Filestore σ) (pins : Pinner)
    (cids : List Cid) (b : Backend) (res : List PinResult)
    (pinned : Cid → Bool) (reason : Cid → String)
    (hpins : pins cids = Except.ok res)
    (hcons : ∀ r ∈ res, r.pinned = pinned r.key ∧ r.reason = reason r.key)
    (c : Cid) (hpin : pinned c = true)
    (hav : availableElsewhereB fs b c = false) :
    c ∉ (FilterPinned fs pins cids b).2 ∧
    (c ∈ res.map PinResult.key →
      (⟨cidStr c, reason c⟩ : RemovedBlock) ∈ (FilterPinned fs pins cids b).1) ∧
    ∀ opts : RmBlocksOpts, selectBackend opts.prefixOpt = some b →
      RmBlocks fs pins cids opts =
        Except.ok ⟨cids.length,
          (FilterPinned fs pins cids b).1 ++
            (deleteLoop opts b fs (FilterPinned fs pins cids b).2).2,
          (deleteLoop opts b fs (FilterPinned fs pins cids b).2).1⟩ := by
  have hfp : FilterPinned fs pins cids b = filterPinnedLoop fs b res := by
    unfold FilterPinned
    rw [hpins]
  refine ⟨?_, ?_, ?_⟩
  · rw [hfp]
    exact filterPinnedLoop_not_mem_stillOkay fs b pinned reason res hcons c hpin hav
  · intro hm
    rw [hfp]
    exact filterPinnedLoop_mem_outs fs b pinned reason res hcons c hpin hav hm
  · intro opts hsel
    unfold RmBlocks
    rw [hsel]

/-- Witness for C1 at a concrete input: CID a is pinned, present only in
the filestore manager, so it is excluded from the delete list and its pin
reason is reported. -/
theorem C1_witness :
    "a" ∉ (FilterPinned (fsOf ["a"] []) pinsAll ["a"] Backend.fm).2 ∧
    (⟨cidStr "a", "pinned recursively"⟩ : RemovedBlock) ∈
      (FilterPinned (fsOf ["a"] []) pinsAll ["a"] Backend.fm).1 :=
  have h := C1_pinned_unavailable_never_deleted (fsOf ["a"] []) pinsAll ["a"]
    Backend.fm (["a"].map fun c => ⟨c, true, "pinned recursively"⟩)
    (fun _ => true) (fun _ => "pinned recursively")
    rfl (by decide) "a" rfl rfl
  ⟨h.1, h.2.1 (by decide)⟩

/-- Claim C9: a block-rm request with at least one argument that fails to
decode as a CID aborts with an input error before the removal pipeline is
invoked: the store state is returned unchanged (no block deleted, not
even for the well-formed arguments), and the failure is an error result
of the run (the decoder is a total error-returning function, so no panic
exists in this path). -/
theorem C9_decode_failure_aborts {σ} (decode : String → Except String Cid)
    (rm : List Cid → Bool → Bool → σ → Except String (σ × List RemovedBlock))
    (st : σ) (hashes : List String) (force quiet : Bool) (h : String) (e : String)
    (hmem : h ∈ hashes) (hdec : decode h = Except.error e) :
    (blockRmRun decode rm st hashes force quiet).1 = st ∧
    (blockRmRun decode rm st hashes force quiet).2.isInputError = true := by
  obtain ⟨msg, hmsg⟩ := decodeCids_isError_of_mem decode hashes h e hmem hdec
  unfold blockRmRun
  rw [hmsg]
  exact ⟨rfl, rfl⟩

/-- Witness for C9 at a concrete input: the second argument fails to
decode, the state survives unchanged and the run reports an input error,
even though the first argument was well-formed. -/
theorem C9_witness :
    (blockRmRun (fun s => if s = "" then Except.error "invalid cid" else Except.ok s)
      (fun _ _ _ st => Except.ok (st, []))
      (["stored"] : List Cid) ["QmFoo", ""] false false).1 = ["stored"] ∧
    (blockRmRun (fun s => if s = "" then Except.error "invalid cid" else Except.ok s)
      (fun _ _ _ st => Except.ok (st, []))
      (["stored"] : List Cid) ["QmFoo", ""] false false).2.isInputError = true :=
  C9_decode_failure_aborts
    (fun s => if s = "" then Except.error "invalid cid" else Except.ok s)
    (fun _ _ _ st => Except.ok (st, []))
    ["stored"] ["QmFoo", ""] false false "" "invalid cid" (by decide) rfl

/-- Claim C7, evaluated at the failing input the code mishandles: with an
empty requested CID list the outcome channel is allocated with capacity
0, yet a failing batch pin check still emits one outcome while the GC
lock is held — one more than the capacity, so the send blocks under the
lock, contrary to the stated (and source-commented) never-blocks bound.
For every other shape (nonempty list, or successful pin check) the bound
holds; the overflow needs both conditions at once. -/
theorem C7_empty_list_pin_failure_exceeds_capacity :
    match RmBlocks (fsOf [] []) (pinnerFail "pin service down") ([] : List Cid)
        ⟨FilestorePrefixStr, false, false⟩ with
    | Except.ok r => r.outs.length > r.capacity
    | Except.error _ => False :=
  Nat.one_pos

/-- Claim C4: with `quiet` false every successful deletion emits an
outcome with empty error string (first conjunct, the success branch of
the delete loop); and `quiet` suppresses only those success outcomes:
under the stated facts that real delete errors and pin reasons are
nonempty strings, the outcome stream of a quiet run is exactly the
non-quiet stream with the empty-error (success) outcomes filtered out —
every pinned rejection and every delete error survives — and the final
backend states agree. -/
theorem C4_quiet_suppresses_only_successes {σ} (fs : Filestore σ) (pins : Pinner)
    (cids : List Cid) (p : String) (f : Bool) (b : Backend)
    (hsel : selectBackend p = some b)
    (herr : ∀ (st : σ) (c : Cid) (e : DelErr),
      ((fs.opsIn b).deleteBlock st c).2 = some e → e.msg ≠ "")
    (hreason : ∀ res, pins cids = Except.ok res →
      ∀ r ∈ res, r.pinned = true → r.reason ≠ "") :
    (∀ c : Cid, rmStepOut ⟨p, false, f⟩ c none = [⟨cidStr c, ""⟩]) ∧
    ∀ rq rl, RmBlocks fs pins cids ⟨p, true, f⟩ = Except.ok rq →
      RmBlocks fs pins cids ⟨p, false, f⟩ = Except.ok rl →
      rq.outs = rl.outs.filter (fun o => o.error ≠ "") ∧
      rq.fs = rl.fs ∧ rq.capacity = rl.capacity := by
  constructor
  · intro c
    rfl
  · intro rq rl h1 h2
    unfold RmBlocks at h1 h2
    dsimp only at h1 h2
    rw [hsel] at h1 h2
    injection h1 with h1
    injection h2 with h2
    subst h1
    subst h2
    have hpre : ∀ o ∈ (FilterPinned fs pins cids b).1, o.error ≠ "" := by
      unfold FilterPinned
      cases hp : pins cids with
      | error e =>
        intro o ho
        rw [List.mem_singleton] at ho
        subst ho
        exact string_append_ne_empty _ _ (by decide)
      | ok res =>
        exact filterPinnedLoop_outs_error_ne fs b res (hreason res hp)
    have hdel := deleteLoop_quiet_filter b p f (fs.opsIn b) herr fs rfl
      (FilterPinned fs pins cids b).2
    refine ⟨?_, hdel.1, rfl⟩
    show (FilterPinned fs pins cids b).1 ++ _ = List.filter _ ((FilterPinned fs pins cids b).1 ++ _)
    rw [List.filter_append, hdel.2,
      List.filter_eq_self.mpr (fun o ho => decide_eq_true (hpre o ho))]

/-- Witness for C4 at a concrete input: nothing pinned, store b present,
store c absent; quiet keeps only the not-found error outcome for c while
the non-quiet run also reports the successful removal of b, and both runs
leave the same final stores. -/
theorem C4_witness :
    rmStepOut ⟨FilestorePrefixStr, false, false⟩ "z" none = [⟨cidStr "z", ""⟩] ∧
    ((⟨2, [⟨"c", "blockstore: block not found"⟩], fsOf [] []⟩ : RmResult (List Cid)).outs =
      (⟨2, [⟨"b", ""⟩, ⟨"c", "blockstore: block not found"⟩], fsOf [] []⟩ :
          RmResult (List Cid)).outs.filter (fun o => o.error ≠ "") ∧
      (⟨2, [⟨"c", "blockstore: block not found"⟩], fsOf [] []⟩ : RmResult (List Cid)).fs =
        (⟨2, [⟨"b", ""⟩, ⟨"c", "blockstore: block not found"⟩], fsOf [] []⟩ :
          RmResult (List Cid)).fs ∧
      (⟨2, [⟨"c", "blockstore: block not found"⟩], fsOf [] []⟩ : RmResult (List Cid)).capacity =
        (⟨2, [⟨"b", ""⟩, ⟨"c", "blockstore: block not found"⟩], fsOf [] []⟩ :
          RmResult (List Cid)).capacity) :=
  have h := C4_quiet_suppresses_only_successes (fsOf ["b"] [])
    (pinnerOf (fun _ => false) (fun _ => "")) ["b", "c"] FilestorePrefixStr false
    Backend.fm rfl listStoreOps_err_msg
    (fun res h => by injection h with h; subst h; decide)
  ⟨h.1 "z", h.2 _ _ rfl rfl⟩

/-- Claim C8: with `quiet` and `force` both false and a successful batch
pin check returning one result per requested CID in order, the hashes of
the emitted outcomes are a permutation of the requested CID list — each
requested CID appears exactly once (count equality), either as a pinned
rejection, a delete error, or a success outcome. -/
theorem C8_each_requested_cid_once {σ} (fs : Filestore σ) (pins : Pinner)
    (cids : List Cid) (p : String) (b : Backend) (res : List PinResult)
    (r : RmResult σ)
    (hsel : selectBackend p = some b)
    (hpins : pins cids = Except.ok res)
    (hkeys : res.map PinResult.key = cids)
    (hrun : RmBlocks fs pins cids ⟨p, false, false⟩ = Except.ok r) :
    (r.outs.map RemovedBlock.hash).Perm cids ∧
    ∀ c : Cid, (r.outs.map RemovedBlock.hash).count c = cids.count c := by
  unfold RmBlocks at hrun
  dsimp only at hrun
  rw [hsel] at hrun
  injection hrun with hrun
  subst hrun
  have hfp : FilterPinned fs pins cids b = filterPinnedLoop fs b res := by
    unfold FilterPinned
    rw [hpins]
  have hperm :
      (((FilterPinned fs pins cids b).1 ++
        (deleteLoop ⟨p, false, false⟩ b fs (FilterPinned fs pins cids b).2).2).map
          RemovedBlock.hash).Perm cids := by
    rw [List.map_append, deleteLoop_hash_map, hfp, ← hkeys]
    exact filterPinnedLoop_hash_perm fs b res
  exact ⟨hperm, fun c => hperm.count_eq c⟩

/-- Witness for C8 at a concrete input: of the two requested CIDs, a is
rejected as pinned and b is removed; each appears exactly once in the
outcome hashes. -/
theorem C8_witness :
    ((⟨2, [⟨"a", "pinned recursively"⟩, ⟨"b", ""⟩], fsOf ["a"] []⟩ :
        RmResult (List Cid)).outs.map RemovedBlock.hash).Perm ["a", "b"] ∧
    ((⟨2, [⟨"a", "pinned recursively"⟩, ⟨"b", ""⟩], fsOf ["a"] []⟩ :
        RmResult (List Cid)).outs.map RemovedBlock.hash).count "a" =
      (["a", "b"] : List Cid).count "a" :=
  have h := C8_each_requested_cid_once (fsOf ["a", "b"] [])
    (pinnerOf (fun c => c == "a") (fun _ => "pinned recursively")) ["a", "b"]
    FilestorePrefixStr Backend.fm
    (["a", "b"].map fun c => ⟨c, c == "a", "pinned recursively"⟩)
    ⟨2, [⟨"a", "pinned recursively"⟩, ⟨"b", ""⟩], fsOf ["a"] []⟩
    rfl rfl rfl rfl
  ⟨h.1, h.2 "a"⟩
